import Mathlib

/-!
Shallow embedding of the main-menu spot registry and selection logic of
`NMMSubsystem.cpp` (plugin NewMainMenu of the Bomber repository), together
with proofs about its specification.

Modelling conventions:
* A `UNMMSpotComponent*` handle is `Option Spot`: `none` is the null
  pointer, and a `Spot` carries an identity (`id`, standing for the pointer
  value) plus the cinematic-row data read by the subsystem (`levelType`,
  `rowIndex`).  Pointer equality is equality of `Spot` values; distinct
  components get distinct `id`s.
* `TArray` is `List`.  `TArray::AddUnique` is `addUnique` (append when
  absent), `TArray::RemoveSwap` is `removeSwap` (remove every occurrence,
  filling each hole with the current last element, exactly as the engine
  loop does), `TArray::Sort` with the predicate `A.RowIndex < B.RowIndex`
  is insertion sort by `rowIndex ≤ rowIndex` (the engine sort is unstable,
  so only the resulting `rowIndex` order is relied upon anywhere).
* `int32` arithmetic is `Int` with C++ truncated `%` (`Int.tmod`); no
  intermediate value here can approach the `int32` range for the
  directions ±1 the spec talks about.
* A `checkf`/`operator[]` range failure is fatal in the engine; the model
  returns `Except.error`.  `ensureMsgf` is non-fatal: the operation
  reports (modelled as a returned `Bool` or as the error-free no-op
  result) and continues.
* Calls into the external cinematic collaborator (`StopMasterSequence`,
  `SetCinematicState IdlePart`) are recorded as an `NMMEvent` trace.
-/

/-- A registered main-menu spot: identity plus the cinematic row fields the
subsystem reads (`GetCinematicRow().LevelType`, `GetCinematicRow().RowIndex`). -/
structure Spot where
  id : Nat
  levelType : Nat
  rowIndex : Int
deriving DecidableEq, Repr

/-- State of `UNMMSubsystem`: the data-asset reference, the spot array
`MainMenuSpotsInternal` (entries are nullable handles) and
`ActiveMainMenuSpotIdx`. -/
structure NMMSubsystem where
  newMainMenuDataAsset : Option Nat
  mainMenuSpots : List (Option Spot)
  activeMainMenuSpotIdx : Int
deriving DecidableEq, Repr

/-- `TArray::AddUnique`: append the element unless it is already present. -/
def addUnique {α : Type} [DecidableEq α] (l : List α) (a : α) : List α :=
  if a ∈ l then l else l ++ [a]

/-- `TArray::RemoveAtSwap i`: overwrite position `i` with the last element
and drop the last slot. -/
def removeAtSwap {α : Type} (l : List α) (i : Nat) : List α :=
  match l.getLast? with
  | none => l
  | some lastElem => (l.set i lastElem).dropLast

/-- The scan loop of `TArray::RemoveSwap`: walk the array from position `i`;
on a hit remove via `removeAtSwap` and re-examine the same position,
otherwise advance.  `fuel` dominates the number of steps (each step either
shrinks the list or advances `i`), so `2 * length + 1` initial fuel makes
the recursion exact. -/
def removeSwapLoop {α : Type} [DecidableEq α] (x : α) : Nat → List α → Nat → List α
  | 0, l, _ => l
  | fuel + 1, l, i =>
    if h : i < l.length then
      if l.get ⟨i, h⟩ = x then
        removeSwapLoop x fuel (removeAtSwap l i) i
      else
        removeSwapLoop x fuel l (i + 1)
    else
      l

/-- `TArray::RemoveSwap`: remove every occurrence of `x`, not preserving
order. -/
def removeSwap {α : Type} [DecidableEq α] (l : List α) (x : α) : List α :=
  removeSwapLoop x (2 * l.length + 1) l 0

/-- `UNMMSubsystem::AddNewMainMenuSpot`.  The returned flag is `true` when
the `ensureMsgf` diagnostic fired (null handle); the operation is then a
no-op and the process continues. -/
def addNewMainMenuSpot (st : NMMSubsystem) (c : Option Spot) : NMMSubsystem × Bool :=
  match c with
  | some sp => ({ st with mainMenuSpots := addUnique st.mainMenuSpots (some sp) }, false)
  | none => (st, true)

/-- `UNMMSubsystem::RemoveMainMenuSpot`.  The returned flag is `true` when
the `ensureMsgf` diagnostic fired (null handle). -/
def removeMainMenuSpot (st : NMMSubsystem) (c : Option Spot) : NMMSubsystem × Bool :=
  match c with
  | some sp => ({ st with mainMenuSpots := removeSwap st.mainMenuSpots (some sp) }, false)
  | none => (st, true)

/-- Loop body of `GetMainMenuSpotsByLevelType`: skip null handles, and
`AddUnique` a spot whose level type matches into the output array. -/
def queryStep (levelType : Nat) (acc : List Spot) : Option Spot → List Spot
  | some sp => if sp.levelType = levelType then addUnique acc sp else acc
  | none => acc

/-- The sort order of `GetMainMenuSpotsByLevelType`: by `RowIndex`.  The
engine's unstable `TArray::Sort` with the strict predicate
`A.RowIndex < B.RowIndex` produces some array that is non-decreasing in
`RowIndex`; the model realises it with insertion sort by `rowLE`. -/
def rowLE (a b : Spot) : Prop := a.rowIndex ≤ b.rowIndex

instance : DecidableRel rowLE := fun a b =>
  inferInstanceAs (Decidable (a.rowIndex ≤ b.rowIndex))

instance : IsTotal Spot rowLE := ⟨fun a b => Int.le_total a.rowIndex b.rowIndex⟩

instance : IsTrans Spot rowLE := ⟨fun _ _ _ hab hbc => Int.le_trans hab hbc⟩

/-- `UNMMSubsystem::GetMainMenuSpotsByLevelType`: append to the
caller-supplied `outSpots` every non-null registered spot whose level type
matches (duplicates suppressed by `AddUnique`), then sort the whole array
by `RowIndex`. -/
def getMainMenuSpotsByLevelType (spots : List (Option Spot)) (outSpots : List Spot)
    (levelType : Nat) : List Spot :=
  List.insertionSort rowLE (spots.foldl (queryStep levelType) outSpots)

/-- Loop body of the `SpotRowIndices` extraction in `MoveMainMenuSpot`. -/
def rowStep (acc : List Int) (sp : Spot) : List Int :=
  addUnique acc sp.rowIndex

/-- The `SpotRowIndices` extraction inside `MoveMainMenuSpot`: fold
`AddUnique` of each candidate's `RowIndex` over the candidate array. -/
def spotRowIndices (spots : List Spot) : List Int :=
  spots.foldl rowStep []

/-- A call into the external cinematic collaborator. -/
inductive NMMEvent where
  | stopMasterSequence (sp : Spot)
  | setIdleState (sp : Spot)
deriving DecidableEq, Repr

/-- Result of a completed (non-fatal) `MoveMainMenuSpot` call: the new
subsystem state, the collaborator calls made, and the returned handle
(`none` models returning `nullptr`). -/
structure MoveResult where
  state : NMMSubsystem
  events : List NMMEvent
  returned : Option Spot
deriving DecidableEq, Repr

/-- Placeholder spot used by guarded `List.getD` accesses; every access is
behind the bounds test the C++ performs, so the default is never produced. -/
def defaultSpot : Spot := ⟨0, 0, 0⟩

/-- The local `CurrentLevelTypeSpots` of `MoveMainMenuSpot`: the fresh
query for the current level type with an empty output array. -/
def candidateSpots (st : NMMSubsystem) (levelType : Nat) : List Spot :=
  getMainMenuSpotsByLevelType st.mainMenuSpots [] levelType

/-- The local `SpotRowIndices` of `MoveMainMenuSpot`. -/
def candidateRows (st : NMMSubsystem) (levelType : Nat) : List Int :=
  spotRowIndices (candidateSpots st levelType)

/-- The local `ActiveSpotPosition` of `MoveMainMenuSpot`:
`SpotRowIndices.IndexOfByKey(ActiveMainMenuSpotIdx)`. -/
def activePos (st : NMMSubsystem) (levelType : Nat) : Nat :=
  (candidateRows st levelType).findIdx (fun r => r = st.activeMainMenuSpotIdx)

/-- The local `NewSpotIndex` of `MoveMainMenuSpot`, as the `int32` value
`(ActiveSpotPosition + Incrementer + SpotRowIndices.Num()) % SpotRowIndices.Num()`
with C++ truncated `%`. -/
def newSpotIndexInt (st : NMMSubsystem) (levelType : Nat) (incrementer : Int) : Int :=
  ((activePos st levelType : Int) + incrementer + (candidateRows st levelType).length).tmod
    (candidateRows st levelType).length

/-- `UNMMSubsystem::MoveMainMenuSpot`.  `currentLevelType` is the value the
level-context provider returns for this call; `incrementer` is the raw
`int32` argument.  `Except.error` marks a fatal `checkf` / range-check
branch; `Except.ok` with `returned = none` is the reported
(`ensureMsgf`) early return when `ActiveMainMenuSpotIdx` is not among the
candidate row indices. -/
def moveMainMenuSpot (st : NMMSubsystem) (currentLevelType : Nat)
    (incrementer : Int) : Except String MoveResult :=
  let currentLevelTypeSpots := candidateSpots st currentLevelType
  let rows := candidateRows st currentLevelType
  if st.activeMainMenuSpotIdx ∈ rows then
    let activeSpotPosition := activePos st currentLevelType
    if activeSpotPosition < currentLevelTypeSpots.length then
      let currentSpot := currentLevelTypeSpots.getD activeSpotPosition defaultSpot
      -- The second checkf (CurrentSpot non-null) holds by construction here:
      -- the candidate array never contains nulls, which the Spot element type captures.
      let newSpotIndex : Int := newSpotIndexInt st currentLevelType incrementer
      if 0 ≤ newSpotIndex ∧ newSpotIndex.toNat < rows.length then
        let newActive := rows.getD newSpotIndex.toNat 0
        if newSpotIndex.toNat < currentLevelTypeSpots.length then
          let newSpot := currentLevelTypeSpots.getD newSpotIndex.toNat defaultSpot
          Except.ok
            { state := { st with activeMainMenuSpotIdx := newActive }
              events := [.stopMasterSequence currentSpot, .setIdleState newSpot]
              returned := some newSpot }
        else
          Except.error "checkf failed: NewSpotIndex is not a valid CurrentLevelTypeSpots index"
      else
        Except.error "range check failed on SpotRowIndices access at NewSpotIndex"
    else
      Except.error "checkf failed: ActiveSpotPosition is not a valid CurrentLevelTypeSpots index"
  else
    Except.ok { state := st, events := [], returned := none }

/-- `UNMMSubsystem::Deinitialize`: reset the data-asset reference and empty
the spot array.  (`ActiveMainMenuSpotIdx` is not touched by the source.) -/
def deinit (st : NMMSubsystem) : NMMSubsystem :=
  { st with newMainMenuDataAsset := none, mainMenuSpots := [] }

/-- Row-index uniqueness within a level type, the data-model precondition
stated by the specification ("RowIndex ... unique within a level type"). -/
def RowUniq (spots : List (Option Spot)) : Prop :=
  ∀ q1 q2 : Spot, some q1 ∈ spots → some q2 ∈ spots →
    q1.levelType = q2.levelType → q1.rowIndex = q2.rowIndex → q1 = q2

/-! ### Lemmas about `addUnique` and the two `AddUnique` folds -/

theorem mem_addUnique {α : Type} [DecidableEq α] {l : List α} {a x : α} :
    x ∈ addUnique l a ↔ x ∈ l ∨ x = a := by
  by_cases h : a ∈ l
  · simp only [addUnique, if_pos h]
    exact ⟨Or.inl, fun hx => hx.elim id (fun e => e ▸ h)⟩
  · simp [addUnique, if_neg h]

theorem addUnique_nodup {α : Type} [DecidableEq α] {l : List α} {a : α}
    (h : l.Nodup) : (addUnique l a).Nodup := by
  by_cases ha : a ∈ l
  · simpa [addUnique, if_pos ha] using h
  · simp only [addUnique, if_neg ha]
    refine h.append (List.nodup_singleton a) ?_
    intro x hx hmem
    rw [List.mem_singleton] at hmem
    subst hmem
    exact ha hx

theorem addUnique_length_le {α : Type} [DecidableEq α] (l : List α) (a : α) :
    (addUnique l a).length ≤ l.length + 1 := by
  by_cases h : a ∈ l <;> simp [addUnique, h]

theorem foldl_queryStep_mem (lt : Nat) (spots : List (Option Spot)) (acc : List Spot)
    (x : Spot) :
    x ∈ spots.foldl (queryStep lt) acc ↔ x ∈ acc ∨ (some x ∈ spots ∧ x.levelType = lt) := by
  induction spots generalizing acc with
  | nil => simp
  | cons c rest ih =>
    simp only [List.foldl_cons, ih, List.mem_cons]
    cases c with
    | none => simp [queryStep]
    | some sp =>
      by_cases hl : sp.levelType = lt
      · simp only [queryStep, if_pos hl]
        constructor
        · rintro (hmem | ⟨hr, hlt⟩)
          · rcases mem_addUnique.mp hmem with hacc | rfl
            · exact Or.inl hacc
            · exact Or.inr ⟨Or.inl rfl, hl⟩
          · exact Or.inr ⟨Or.inr hr, hlt⟩
        · rintro (hacc | ⟨heq | hr, hlt⟩)
          · exact Or.inl (mem_addUnique.mpr (Or.inl hacc))
          · cases Option.some.inj heq
            exact Or.inl (mem_addUnique.mpr (Or.inr rfl))
          · exact Or.inr ⟨hr, hlt⟩
      · simp only [queryStep, if_neg hl]
        constructor
        · rintro (hacc | ⟨hr, hlt⟩)
          · exact Or.inl hacc
          · exact Or.inr ⟨Or.inr hr, hlt⟩
        · rintro (hacc | ⟨heq | hr, hlt⟩)
          · exact Or.inl hacc
          · cases Option.some.inj heq
            exact absurd hlt hl
          · exact Or.inr ⟨hr, hlt⟩

theorem foldl_queryStep_nodup (lt : Nat) (spots : List (Option Spot)) (acc : List Spot)
    (h : acc.Nodup) : (spots.foldl (queryStep lt) acc).Nodup := by
  induction spots generalizing acc with
  | nil => exact h
  | cons c rest ih =>
    apply ih
    cases c with
    | none => exact h
    | some sp =>
      by_cases hl : sp.levelType = lt
      · simpa only [queryStep, if_pos hl] using addUnique_nodup h
      · simpa only [queryStep, if_neg hl] using h

theorem foldl_rowStep_mem (spots : List Spot) (acc : List Int) (r : Int) :
    r ∈ spots.foldl rowStep acc ↔ r ∈ acc ∨ ∃ sp ∈ spots, sp.rowIndex = r := by
  induction spots generalizing acc with
  | nil => simp
  | cons sp rest ih =>
    simp only [List.foldl_cons, ih, rowStep, mem_addUnique, List.mem_cons]
    constructor
    · rintro ((hacc | rfl) | ⟨q, hq, rfl⟩)
      · exact Or.inl hacc
      · exact Or.inr ⟨sp, Or.inl rfl, rfl⟩
      · exact Or.inr ⟨q, Or.inr hq, rfl⟩
    · rintro (hacc | ⟨q, (rfl | hq), rfl⟩)
      · exact Or.inl (Or.inl hacc)
      · exact Or.inl (Or.inr rfl)
      · exact Or.inr ⟨q, hq, rfl⟩

theorem foldl_rowStep_nodup (spots : List Spot) (acc : List Int) (h : acc.Nodup) :
    (spots.foldl rowStep acc).Nodup := by
  induction spots generalizing acc with
  | nil => exact h
  | cons sp rest ih => exact ih _ (addUnique_nodup h)

theorem foldl_rowStep_length (spots : List Spot) (acc : List Int) :
    (spots.foldl rowStep acc).length ≤ acc.length + spots.length := by
  induction spots generalizing acc with
  | nil => simp
  | cons sp rest ih =>
    calc (rest.foldl rowStep (rowStep acc sp)).length
        ≤ (rowStep acc sp).length + rest.length := ih _
      _ ≤ acc.length + 1 + rest.length :=
          Nat.add_le_add_right (addUnique_length_le acc sp.rowIndex) _
      _ = acc.length + (sp :: rest).length := by simp; omega

/-! ### Lemmas about the query and the row-index extraction -/

theorem mem_getMainMenuSpotsByLevelType {spots : List (Option Spot)} {out : List Spot}
    {lt : Nat} {x : Spot} :
    x ∈ getMainMenuSpotsByLevelType spots out lt ↔
      x ∈ out ∨ (some x ∈ spots ∧ x.levelType = lt) := by
  unfold getMainMenuSpotsByLevelType
  rw [List.mem_insertionSort]
  exact foldl_queryStep_mem lt spots out x

theorem getMainMenuSpotsByLevelType_nodup {spots : List (Option Spot)} {out : List Spot}
    {lt : Nat} (h : out.Nodup) : (getMainMenuSpotsByLevelType spots out lt).Nodup := by
  unfold getMainMenuSpotsByLevelType
  exact (List.perm_insertionSort rowLE _).nodup_iff.mpr (foldl_queryStep_nodup lt spots out h)

theorem getMainMenuSpotsByLevelType_sorted (spots : List (Option Spot)) (out : List Spot)
    (lt : Nat) :
    (getMainMenuSpotsByLevelType spots out lt).Pairwise rowLE := by
  unfold getMainMenuSpotsByLevelType
  exact List.sorted_insertionSort rowLE (spots.foldl (queryStep lt) out)

theorem mem_spotRowIndices {spots : List Spot} {r : Int} :
    r ∈ spotRowIndices spots ↔ ∃ sp ∈ spots, sp.rowIndex = r := by
  unfold spotRowIndices
  rw [foldl_rowStep_mem]
  simp

theorem spotRowIndices_nodup (spots : List Spot) : (spotRowIndices spots).Nodup :=
  foldl_rowStep_nodup spots [] List.nodup_nil

theorem spotRowIndices_length_le (spots : List Spot) :
    (spotRowIndices spots).length ≤ spots.length := by
  simpa using foldl_rowStep_length spots []

theorem mem_candidateRows {st : NMMSubsystem} {lt : Nat} {r : Int} :
    r ∈ candidateRows st lt ↔
      ∃ sp, some sp ∈ st.mainMenuSpots ∧ sp.levelType = lt ∧ sp.rowIndex = r := by
  unfold candidateRows
  rw [mem_spotRowIndices]
  constructor
  · rintro ⟨sp, hsp, rfl⟩
    rcases mem_getMainMenuSpotsByLevelType.mp hsp with h | ⟨hs, hl⟩
    · cases h
    · exact ⟨sp, hs, hl, rfl⟩
  · rintro ⟨sp, hs, hl, rfl⟩
    exact ⟨sp, mem_getMainMenuSpotsByLevelType.mpr (Or.inr ⟨hs, hl⟩), rfl⟩

theorem candidateRows_nodup (st : NMMSubsystem) (lt : Nat) : (candidateRows st lt).Nodup :=
  spotRowIndices_nodup _

theorem candidateRows_length_le (st : NMMSubsystem) (lt : Nat) :
    (candidateRows st lt).length ≤ (candidateSpots st lt).length :=
  spotRowIndices_length_le _

/-- `candidateSpots`, `candidateRows`, `activePos` only read the spot array
and the active index, so a state with the same array and active index has
the same candidates. -/
theorem candidateSpots_congr {st st' : NMMSubsystem} (lt : Nat)
    (h : st'.mainMenuSpots = st.mainMenuSpots) :
    candidateSpots st' lt = candidateSpots st lt := by
  unfold candidateSpots
  rw [h]

/-! ### Lemmas about the active position and index arithmetic -/

theorem activePos_lt {st : NMMSubsystem} {lt : Nat}
    (hmem : st.activeMainMenuSpotIdx ∈ candidateRows st lt) :
    activePos st lt < (candidateRows st lt).length :=
  List.findIdx_lt_length_of_exists ⟨st.activeMainMenuSpotIdx, hmem, by simp⟩

theorem getElem_activePos {st : NMMSubsystem} {lt : Nat}
    (hpos : activePos st lt < (candidateRows st lt).length) :
    (candidateRows st lt)[activePos st lt] = st.activeMainMenuSpotIdx := by
  have h := @List.findIdx_getElem _ (fun r => r = st.activeMainMenuSpotIdx)
    (candidateRows st lt) hpos
  simpa [activePos] using h

/-- In a `Nodup` list, searching for the element at position `i` finds
exactly position `i`. -/
theorem findIdx_getElem_of_nodup {l : List Int} (h : l.Nodup) {i : Nat}
    (hi : i < l.length) : l.findIdx (fun r => r = l[i]) = i := by
  have hex : ∃ x ∈ l, (fun r => decide (r = l[i])) x = true :=
    ⟨l[i], List.getElem_mem hi, by simp⟩
  have hlt := List.findIdx_lt_length_of_exists hex
  have hval : l[l.findIdx (fun r => r = l[i])] = l[i] := by
    have := @List.findIdx_getElem _ (fun r => r = l[i]) l hlt
    simpa using this
  exact (h.getElem_inj_iff).mp hval

theorem candidateRows_ne_nil_length {st : NMMSubsystem} {lt : Nat}
    (hmem : st.activeMainMenuSpotIdx ∈ candidateRows st lt) :
    0 < (candidateRows st lt).length :=
  List.length_pos.mpr (List.ne_nil_of_mem hmem)

/-- For a direction no smaller than `-1`, the C++ index expression is
nonnegative, so truncated `%` agrees with Euclidean `%` and the result is
a valid index. -/
theorem newSpotIndexInt_bounds {st : NMMSubsystem} {lt : Nat} {inc : Int}
    (hinc : -1 ≤ inc) (hmem : st.activeMainMenuSpotIdx ∈ candidateRows st lt) :
    0 ≤ newSpotIndexInt st lt inc ∧
      (newSpotIndexInt st lt inc).toNat < (candidateRows st lt).length := by
  have hn : 0 < (candidateRows st lt).length := candidateRows_ne_nil_length hmem
  have hnI : (0 : Int) < ((candidateRows st lt).length : Int) := by exact_mod_cast hn
  have harg : 0 ≤ (activePos st lt : Int) + inc + ((candidateRows st lt).length : Int) := by
    have : (0 : Int) ≤ (activePos st lt : Int) := Int.natCast_nonneg _
    omega
  have htmod : newSpotIndexInt st lt inc =
      ((activePos st lt : Int) + inc + ((candidateRows st lt).length : Int)) %
        ((candidateRows st lt).length : Int) := by
    unfold newSpotIndexInt
    exact Int.tmod_eq_emod harg (Int.le_of_lt hnI)
  constructor
  · rw [htmod]
    exact Int.emod_nonneg _ (Int.ne_of_gt hnI)
  · have hlt := Int.emod_lt_of_pos
      ((activePos st lt : Int) + inc + ((candidateRows st lt).length : Int)) hnI
    rw [htmod]
    omega

/-- The successful branch of `MoveMainMenuSpot`: when the active index is
among the candidate row indices and the direction is at least `-1`, the
call completes, stops the spot at the active position, sets the active row
to the row at the stepped position, idles and returns the spot at the
stepped position. -/
theorem moveMainMenuSpot_found (st : NMMSubsystem) (lt : Nat) (inc : Int)
    (hinc : -1 ≤ inc) (hmem : st.activeMainMenuSpotIdx ∈ candidateRows st lt) :
    moveMainMenuSpot st lt inc = Except.ok
      { state := { st with activeMainMenuSpotIdx :=
            (candidateRows st lt).getD (newSpotIndexInt st lt inc).toNat 0 }
        events := [.stopMasterSequence ((candidateSpots st lt).getD (activePos st lt) defaultSpot),
                   .setIdleState ((candidateSpots st lt).getD (newSpotIndexInt st lt inc).toNat defaultSpot)]
        returned := some ((candidateSpots st lt).getD (newSpotIndexInt st lt inc).toNat defaultSpot) } := by
  have hb := newSpotIndexInt_bounds hinc hmem
  have hpos : activePos st lt < (candidateRows st lt).length := activePos_lt hmem
  have hlen : (candidateRows st lt).length ≤ (candidateSpots st lt).length :=
    candidateRows_length_le st lt
  simp only [moveMainMenuSpot]
  rw [if_pos hmem, if_pos (Nat.lt_of_lt_of_le hpos hlen), if_pos hb,
    if_pos (Nat.lt_of_lt_of_le hb.2 hlen)]

/-- The reported early-return branch of `MoveMainMenuSpot`: when the active
index is not among the candidate row indices the call is a no-op that
makes no collaborator call and returns the null handle. -/
theorem moveMainMenuSpot_not_found (st : NMMSubsystem) (lt : Nat) (inc : Int)
    (hmem : st.activeMainMenuSpotIdx ∉ candidateRows st lt) :
    moveMainMenuSpot st lt inc =
      Except.ok { state := st, events := [], returned := none } := by
  simp only [moveMainMenuSpot]
  rw [if_neg hmem]

/-! ### Round-trip arithmetic and inversion of a successful cycle -/

/-- Pure index arithmetic of the round trip: stepping forward once and then
backward once through a cyclic range of size `n` returns to the start. -/
theorem cycle_roundtrip_arith (p n : Nat) (hp : p < n) :
    ((((((p : Int) + 1 + n).tmod n).toNat : Int)) - 1 + n).tmod n = (p : Int) := by
  have hnI : (0 : Int) < (n : Int) := by exact_mod_cast Nat.zero_lt_of_lt hp
  have h1 : ((p : Int) + 1 + n).tmod n = ((p : Int) + 1 + n) % n :=
    Int.tmod_eq_emod (by omega) (Int.le_of_lt hnI)
  have hmodnn : 0 ≤ ((p : Int) + 1 + n) % n := Int.emod_nonneg _ (Int.ne_of_gt hnI)
  rw [h1, Int.toNat_of_nonneg hmodnn]
  have h2 : ((p : Int) + 1 + n) % n - 1 + n = ((p : Int) + 1 + n) % n + (n - 1) := by ring
  rw [h2, Int.tmod_eq_emod (by omega) (Int.le_of_lt hnI)]
  have h3 : (((p : Int) + 1 + n) % n + (n - 1)) % n = (((p : Int) + 1 + n) + (n - 1)) % n := by
    conv_rhs => rw [Int.add_emod]
    rw [Int.add_emod (((p : Int) + 1 + n) % n) (n - 1), Int.emod_emod_of_dvd _ dvd_rfl]
  rw [h3]
  have h4 : ((p : Int) + 1 + n) + (n - 1) = (p : Int) + n * 2 := by ring
  rw [h4, Int.add_mul_emod_self_left]
  exact Int.emod_eq_of_lt (Int.natCast_nonneg p) (by exact_mod_cast hp)

theorem hp_toNat_eq {p n : Nat} (hp : p < n) {inc : Int} (hinc : -1 ≤ inc) :
    ((((p : Int) + inc + n).tmod n).toNat : Int) = ((p : Int) + inc + n).tmod n := by
  have hnI : (0 : Int) < (n : Int) := by exact_mod_cast Nat.zero_lt_of_lt hp
  rw [Int.tmod_eq_emod (by omega) (Int.le_of_lt hnI)]
  exact Int.toNat_of_nonneg (Int.emod_nonneg _ (Int.ne_of_gt hnI))

/-- Inversion of a completed `MoveMainMenuSpot` that returned a spot: the
registry and data asset are untouched, and the new active index is one of
the current candidate row indices. -/
theorem moveMainMenuSpot_ok_some_inv {st : NMMSubsystem} {lt : Nat} {inc : Int}
    {res : MoveResult} (h : moveMainMenuSpot st lt inc = Except.ok res)
    (hr : res.returned.isSome) :
    res.state.mainMenuSpots = st.mainMenuSpots ∧
      res.state.newMainMenuDataAsset = st.newMainMenuDataAsset ∧
      res.state.activeMainMenuSpotIdx ∈ candidateRows st lt := by
  by_cases hmem : st.activeMainMenuSpotIdx ∈ candidateRows st lt
  · simp only [moveMainMenuSpot, if_pos hmem] at h
    split at h
    · split at h
      · split at h
        · next hcheck _ =>
            cases Except.ok.inj h
            refine ⟨rfl, rfl, ?_⟩
            simp only
            rw [List.getD_eq_getElem (candidateRows st lt) 0 hcheck.2]
            exact List.getElem_mem hcheck.2
        · cases h
      · cases h
    · cases h
  · rw [moveMainMenuSpot_not_found st lt inc hmem] at h
    cases Except.ok.inj h
    simp at hr

/-! ### Lemmas about `RemoveSwap` -/

theorem mem_of_mem_removeAtSwap {α : Type} {l : List α} {i : Nat} {x : α}
    (h : x ∈ removeAtSwap l i) : x ∈ l := by
  unfold removeAtSwap at h
  split at h
  · exact h
  · next lastElem hlast =>
    have hsub : x ∈ l.set i lastElem := (List.dropLast_sublist _).subset h
    rcases List.mem_or_eq_of_mem_set hsub with h' | rfl
    · exact h'
    · exact List.mem_of_getLast?_eq_some hlast

theorem removeAtSwap_length {α : Type} (l : List α) (i : Nat) (hne : l ≠ []) :
    (removeAtSwap l i).length = l.length - 1 := by
  unfold removeAtSwap
  split
  · next hnone => exact absurd (List.getLast?_eq_none_iff.mp hnone) hne
  · next lastElem hlast => simp

theorem removeAtSwap_getElem_lt {α : Type} {l : List α} {i j : Nat} (hij : j < i)
    (hj : j < (removeAtSwap l i).length) (hjl : j < l.length) :
    (removeAtSwap l i)[j] = l[j] := by
  rcases hlast : l.getLast? with _ | lastElem
  · have hnil : l = [] := List.getLast?_eq_none_iff.mp hlast
    subst hnil
    simp at hjl
  · have hra : removeAtSwap l i = (l.set i lastElem).dropLast := by
      unfold removeAtSwap
      rw [hlast]
    simp only [hra]
    rw [List.getElem_dropLast, List.getElem_set_ne (Nat.ne_of_gt hij)]

theorem mem_of_mem_removeSwapLoop {α : Type} [DecidableEq α] {x y : α} :
    ∀ (fuel : Nat) (l : List α) (i : Nat), y ∈ removeSwapLoop x fuel l i → y ∈ l := by
  intro fuel
  induction fuel with
  | zero =>
    intro l i h
    simpa only [removeSwapLoop] using h
  | succ fuel ih =>
    intro l i h
    simp only [removeSwapLoop] at h
    split at h
    · split at h
      · exact mem_of_mem_removeAtSwap (ih _ _ h)
      · exact ih _ _ h
    · exact h

theorem not_mem_removeSwapLoop {α : Type} [DecidableEq α] {x : α} :
    ∀ (fuel : Nat) (l : List α) (i : Nat),
      2 * l.length ≤ fuel + i →
      (∀ j (hj : j < l.length), j < i → l[j] ≠ x) →
      x ∉ removeSwapLoop x fuel l i := by
  intro fuel
  induction fuel with
  | zero =>
    intro l i hfuel hinv hmem
    simp only [removeSwapLoop] at hmem
    rcases List.mem_iff_getElem.mp hmem with ⟨j, hj, hjx⟩
    exact hinv j hj (by omega) hjx
  | succ fuel ih =>
    intro l i hfuel hinv
    simp only [removeSwapLoop]
    split
    · next hi =>
      split
      · next heq =>
        have hne : l ≠ [] := List.ne_nil_of_length_pos (by omega)
        have hlen := removeAtSwap_length l i hne
        apply ih (removeAtSwap l i) i
        · rw [hlen]; omega
        · intro j hj hji
          have hjl : j < l.length := by rw [hlen] at hj; omega
          rw [removeAtSwap_getElem_lt hji hj hjl]
          exact hinv j hjl hji
      · next hne' =>
        apply ih l (i + 1)
        · omega
        · intro j hj hji
          rcases Nat.lt_or_ge j i with h' | h'
          · exact hinv j hj h'
          · have hj_eq : j = i := by omega
            subst hj_eq
            simpa [List.get_eq_getElem] using hne'
    · next hi =>
      intro hmem
      rcases List.mem_iff_getElem.mp hmem with ⟨j, hj, hjx⟩
      exact hinv j hj (by omega) hjx

theorem mem_of_mem_removeSwap {α : Type} [DecidableEq α] {l : List α} {x y : α}
    (h : y ∈ removeSwap l x) : y ∈ l :=
  mem_of_mem_removeSwapLoop _ _ _ h

theorem not_mem_removeSwap_self {α : Type} [DecidableEq α] (l : List α) (x : α) :
    x ∉ removeSwap l x := by
  apply not_mem_removeSwapLoop
  · omega
  · intro j hj hji
    exact absurd hji (Nat.not_lt_zero j)

/-! ### Claim theorems -/

/-- C3: for every registry and direction, if `ActiveRowIndex` is not among
the row indices of the current level type's candidates — in particular
whenever the candidate set is empty — `MoveMainMenuSpot` returns the null
handle, leaves the whole state unchanged, makes no collaborator call, and
completes without a fatal branch (the modulus is never evaluated: the
definition returns before `newSpotIndexInt`). -/
theorem claim_C3 :
    (∀ (st : NMMSubsystem) (lt : Nat) (inc : Int),
        st.activeMainMenuSpotIdx ∉ candidateRows st lt →
        moveMainMenuSpot st lt inc = Except.ok ⟨st, [], none⟩) ∧
    (∀ (st : NMMSubsystem) (lt : Nat) (inc : Int),
        candidateSpots st lt = [] →
        moveMainMenuSpot st lt inc = Except.ok ⟨st, [], none⟩) := by
  constructor
  · exact fun st lt inc hmem => moveMainMenuSpot_not_found st lt inc hmem
  · intro st lt inc hempty
    apply moveMainMenuSpot_not_found
    intro hmem
    unfold candidateRows at hmem
    rw [hempty] at hmem
    simp [spotRowIndices] at hmem

/-- Witness for C3 at a concrete state: the registry is empty, so the
cycle call is a reported no-op. -/
theorem claim_C3_witness :
    moveMainMenuSpot ⟨none, [], 0⟩ 0 1 = Except.ok ⟨⟨none, [], 0⟩, [], none⟩ :=
  claim_C3.1 ⟨none, [], 0⟩ 0 1 (by decide)

/-- C9: for directions `+1` and `-1` no fatal branch of `MoveMainMenuSpot`
is reachable — every call completes with `Except.ok` (either the stepped
spot or the reported null result), for every registry. -/
theorem claim_C9 (st : NMMSubsystem) (lt : Nat) (inc : Int)
    (hinc : inc = 1 ∨ inc = -1) :
    ∃ res, moveMainMenuSpot st lt inc = Except.ok res := by
  by_cases hmem : st.activeMainMenuSpotIdx ∈ candidateRows st lt
  · exact ⟨_, moveMainMenuSpot_found st lt inc
      (by rcases hinc with rfl | rfl <;> norm_num) hmem⟩
  · exact ⟨_, moveMainMenuSpot_not_found st lt inc hmem⟩

/-- Witness for C9 at a concrete one-spot registry. -/
theorem claim_C9_witness :
    ∃ res, moveMainMenuSpot ⟨none, [some ⟨0, 0, 0⟩], 0⟩ 0 1 = Except.ok res :=
  claim_C9 ⟨none, [some ⟨0, 0, 0⟩], 0⟩ 0 1 (Or.inl rfl)

/-- C1: whenever the active row index is among the candidate row indices of
the current level type (a non-empty candidate set), `cycle(+1)` followed by
`cycle(-1)` restores `ActiveRowIndex` to its original value. -/
theorem claim_C1 (st : NMMSubsystem) (lt : Nat)
    (hmem : st.activeMainMenuSpotIdx ∈ candidateRows st lt) :
    ∃ r1 r2, moveMainMenuSpot st lt 1 = Except.ok r1 ∧ r1.returned.isSome ∧
      moveMainMenuSpot r1.state lt (-1) = Except.ok r2 ∧
      r2.state.activeMainMenuSpotIdx = st.activeMainMenuSpotIdx := by
  have hp0 : activePos st lt < (candidateRows st lt).length := activePos_lt hmem
  have hnodup := candidateRows_nodup st lt
  have hb1 := @newSpotIndexInt_bounds st lt 1 (by norm_num) hmem
  have h1 := moveMainMenuSpot_found st lt 1 (by norm_num) hmem
  set st1 : NMMSubsystem :=
    { st with activeMainMenuSpotIdx :=
        (candidateRows st lt).getD (newSpotIndexInt st lt 1).toNat 0 } with hst1
  have hq1 : (newSpotIndexInt st lt 1).toNat < (candidateRows st lt).length := hb1.2
  have hrows1 : candidateRows st1 lt = candidateRows st lt := rfl
  have hactive1 : st1.activeMainMenuSpotIdx =
      (candidateRows st lt)[(newSpotIndexInt st lt 1).toNat] := by
    rw [hst1]
    exact List.getD_eq_getElem _ 0 hq1
  have hmem1 : st1.activeMainMenuSpotIdx ∈ candidateRows st1 lt := by
    rw [hrows1, hactive1]
    exact List.getElem_mem hq1
  have h2 := moveMainMenuSpot_found st1 lt (-1) (by norm_num) hmem1
  have hfind : activePos st1 lt = (newSpotIndexInt st lt 1).toNat := by
    show (candidateRows st1 lt).findIdx (fun r => r = st1.activeMainMenuSpotIdx) = _
    rw [hrows1, hactive1]
    exact findIdx_getElem_of_nodup hnodup hq1
  have e4 : newSpotIndexInt st1 lt (-1) = (activePos st lt : Int) := by
    have base := cycle_roundtrip_arith (activePos st lt)
      (candidateRows st lt).length hp0
    unfold newSpotIndexInt
    rw [hrows1, hfind]
    have hsub : ((newSpotIndexInt st lt 1).toNat : Int) + (-1) +
        ((candidateRows st lt).length : Int) =
        ((newSpotIndexInt st lt 1).toNat : Int) - 1 +
        ((candidateRows st lt).length : Int) := by ring
    rw [hsub]
    unfold newSpotIndexInt
    exact base
  have e5 : (newSpotIndexInt st1 lt (-1)).toNat = activePos st lt := by
    rw [e4]
    simp
  refine ⟨_, _, h1, rfl, h2, ?_⟩
  show (candidateRows st1 lt).getD (newSpotIndexInt st1 lt (-1)).toNat 0 =
    st.activeMainMenuSpotIdx
  rw [hrows1, e5, List.getD_eq_getElem _ 0 hp0]
  exact getElem_activePos hp0

/-- Witness for C1 at the concrete two-spot registry. -/
theorem claim_C1_witness :
    ∃ r1 r2, moveMainMenuSpot ⟨none, [some ⟨0, 0, 0⟩, some ⟨1, 0, 2⟩], 0⟩ 0 1 =
        Except.ok r1 ∧ r1.returned.isSome ∧
      moveMainMenuSpot r1.state 0 (-1) = Except.ok r2 ∧
      r2.state.activeMainMenuSpotIdx =
        (⟨none, [some ⟨0, 0, 0⟩, some ⟨1, 0, 2⟩], 0⟩ : NMMSubsystem).activeMainMenuSpotIdx :=
  claim_C1 ⟨none, [some ⟨0, 0, 0⟩, some ⟨1, 0, 2⟩], 0⟩ 0 (by decide)

/-- C2: on a successful cycle the new active row is the candidate row at
position `(pos + direction + count) mod count` (`newSpotIndexInt`), so
cycling wraps in both directions — at rows `[0, 2, 5]`, `cycle(+1)` from
active `5` yields `0` and `cycle(-1)` from active `0` yields `5` — and
with a single candidate the cycle returns the spot at the active position
and leaves `ActiveRowIndex` unchanged. -/
theorem claim_C2 :
    (∀ (st : NMMSubsystem) (lt : Nat) (inc : Int), (inc = 1 ∨ inc = -1) →
      st.activeMainMenuSpotIdx ∈ candidateRows st lt →
      moveMainMenuSpot st lt inc = Except.ok
        { state := { st with activeMainMenuSpotIdx :=
              (candidateRows st lt).getD (newSpotIndexInt st lt inc).toNat 0 }
          events := [.stopMasterSequence ((candidateSpots st lt).getD (activePos st lt) defaultSpot),
                     .setIdleState ((candidateSpots st lt).getD (newSpotIndexInt st lt inc).toNat defaultSpot)]
          returned := some ((candidateSpots st lt).getD (newSpotIndexInt st lt inc).toNat defaultSpot) }) ∧
    ((moveMainMenuSpot ⟨none, [some ⟨0, 0, 0⟩, some ⟨1, 0, 2⟩, some ⟨2, 0, 5⟩], 5⟩ 0 1).toOption.map
        (fun r => r.state.activeMainMenuSpotIdx) = some 0) ∧
    ((moveMainMenuSpot ⟨none, [some ⟨0, 0, 0⟩, some ⟨1, 0, 2⟩, some ⟨2, 0, 5⟩], 0⟩ 0 (-1)).toOption.map
        (fun r => r.state.activeMainMenuSpotIdx) = some 5) ∧
    (∀ (st : NMMSubsystem) (lt : Nat) (inc : Int), (inc = 1 ∨ inc = -1) →
      st.activeMainMenuSpotIdx ∈ candidateRows st lt →
      (candidateRows st lt).length = 1 →
      ∃ res, moveMainMenuSpot st lt inc = Except.ok res ∧
        res.state.activeMainMenuSpotIdx = st.activeMainMenuSpotIdx ∧
        res.state.mainMenuSpots = st.mainMenuSpots ∧
        res.returned = some ((candidateSpots st lt).getD (activePos st lt) defaultSpot)) := by
  refine ⟨?_, by decide, by decide, ?_⟩
  · intro st lt inc hinc hmem
    exact moveMainMenuSpot_found st lt inc (by rcases hinc with rfl | rfl <;> norm_num) hmem
  · intro st lt inc hinc hmem hlen
    have hincge : (-1 : Int) ≤ inc := by rcases hinc with rfl | rfl <;> norm_num
    have hb := newSpotIndexInt_bounds hincge hmem
    have hq0 : (newSpotIndexInt st lt inc).toNat = 0 := by omega
    have hpos0 : activePos st lt = 0 := by
      have := activePos_lt hmem
      omega
    refine ⟨_, moveMainMenuSpot_found st lt inc hincge hmem, ?_, rfl, ?_⟩
    · show (candidateRows st lt).getD (newSpotIndexInt st lt inc).toNat 0 =
        st.activeMainMenuSpotIdx
      rw [hq0, ← hpos0, List.getD_eq_getElem _ 0 (activePos_lt hmem)]
      exact getElem_activePos (activePos_lt hmem)
    · show some ((candidateSpots st lt).getD (newSpotIndexInt st lt inc).toNat defaultSpot) = _
      rw [hq0, ← hpos0]

/-- Witness for C2 at the wrap scenario of the specification. -/
theorem claim_C2_witness :
    moveMainMenuSpot ⟨none, [some ⟨0, 0, 0⟩, some ⟨1, 0, 2⟩, some ⟨2, 0, 5⟩], 5⟩ 0 1 =
      Except.ok ⟨⟨none, [some ⟨0, 0, 0⟩, some ⟨1, 0, 2⟩, some ⟨2, 0, 5⟩], 0⟩,
        [.stopMasterSequence ⟨2, 0, 5⟩, .setIdleState ⟨0, 0, 0⟩], some ⟨0, 0, 0⟩⟩ := by
  have h := claim_C2.1 ⟨none, [some ⟨0, 0, 0⟩, some ⟨1, 0, 2⟩, some ⟨2, 0, 5⟩], 5⟩ 0 1
    (Or.inl rfl) (by decide)
  rw [h]
  rfl

/-- C4: under row-index uniqueness within a level type, every cycle call
that returns a spot leaves `ActiveRowIndex` equal to the `RowIndex` of
exactly one registered spot of the current level type; and when no
registered spot of the level type carries the active row index, the cycle
is the reported no-op. -/
theorem claim_C4 (st : NMMSubsystem) (lt : Nat) (inc : Int)
    (huniq : RowUniq st.mainMenuSpots) :
    (∀ res sp, moveMainMenuSpot st lt inc = Except.ok res → res.returned = some sp →
      ∃! q : Spot, some q ∈ res.state.mainMenuSpots ∧ q.levelType = lt ∧
        q.rowIndex = res.state.activeMainMenuSpotIdx) ∧
    ((¬ ∃ q : Spot, some q ∈ st.mainMenuSpots ∧ q.levelType = lt ∧
        q.rowIndex = st.activeMainMenuSpotIdx) →
      moveMainMenuSpot st lt inc = Except.ok ⟨st, [], none⟩) := by
  constructor
  · intro res sp hok hret
    obtain ⟨hspots, hda, hmem'⟩ := moveMainMenuSpot_ok_some_inv hok (by rw [hret]; rfl)
    rcases mem_candidateRows.mp hmem' with ⟨q, hq, hlt, hrow⟩
    refine ⟨q, ⟨by rw [hspots]; exact hq, hlt, hrow⟩, ?_⟩
    rintro q' ⟨hq', hlt', hrow'⟩
    rw [hspots] at hq'
    exact huniq q' q hq' hq (by rw [hlt', hlt]) (by rw [hrow', hrow])
  · intro hnone
    apply moveMainMenuSpot_not_found
    intro hmem
    rcases mem_candidateRows.mp hmem with ⟨q, hq, hlt, hrow⟩
    exact hnone ⟨q, hq, hlt, hrow⟩

/-- Witness for C4 on a concrete two-spot registry: after `cycle(+1)` the
new active row `2` identifies exactly one registered spot. -/
theorem claim_C4_witness :
    ∃! q : Spot, some q ∈ [some ⟨0, 0, 0⟩, some (⟨1, 0, 2⟩ : Spot)] ∧ q.levelType = 0 ∧
      q.rowIndex = 2 :=
  (claim_C4 ⟨none, [some ⟨0, 0, 0⟩, some ⟨1, 0, 2⟩], 0⟩ 0 1
      (by
        intro q1 q2 h1 h2 hl hr
        simp only [List.mem_cons, List.mem_singleton, Option.some.injEq,
          List.not_mem_nil, or_false] at h1 h2
        rcases h1 with rfl | rfl <;> rcases h2 with rfl | rfl <;> simp_all)).1
    ⟨⟨none, [some ⟨0, 0, 0⟩, some ⟨1, 0, 2⟩], 2⟩,
      [.stopMasterSequence ⟨0, 0, 0⟩, .setIdleState ⟨1, 0, 2⟩], some ⟨1, 0, 2⟩⟩
    ⟨1, 0, 2⟩ rfl rfl

/-- C6: `AddNewMainMenuSpot` is idempotent (adding an already-registered
spot leaves the registry unchanged) and both `AddNewMainMenuSpot` and
`RemoveMainMenuSpot` on a null handle report (`true` flag), leave the
state unchanged and complete (they are total functions: `ensureMsgf` is
non-fatal). -/
theorem claim_C6 :
    (∀ (st : NMMSubsystem) (sp : Spot), some sp ∈ st.mainMenuSpots →
      addNewMainMenuSpot st (some sp) = (st, false)) ∧
    (∀ st : NMMSubsystem, addNewMainMenuSpot st none = (st, true) ∧
      removeMainMenuSpot st none = (st, true)) := by
  constructor
  · intro st sp hmem
    simp [addNewMainMenuSpot, addUnique, hmem]
  · intro st
    exact ⟨rfl, rfl⟩

/-- Witness for C6: re-adding the registered spot changes nothing. -/
theorem claim_C6_witness :
    addNewMainMenuSpot ⟨none, [some ⟨0, 0, 0⟩], 0⟩ (some ⟨0, 0, 0⟩) =
      (⟨none, [some ⟨0, 0, 0⟩], 0⟩, false) :=
  claim_C6.1 ⟨none, [some ⟨0, 0, 0⟩], 0⟩ ⟨0, 0, 0⟩ (by decide)

/-- Counterexample to C7 as stated: `Deinitialize` does not restore
`ActiveMainMenuSpotIdx` to any fixed initial default — the value after
teardown still depends on the value before. -/
theorem claim_C7_counterexample :
    (deinit ⟨none, [], 3⟩).activeMainMenuSpotIdx ≠
      (deinit ⟨none, [], 7⟩).activeMainMenuSpotIdx := by
  decide

/-- C7 as amended: `Deinitialize` empties the spot registry and resets the
data-asset reference, but leaves `ActiveMainMenuSpotIdx` unchanged. -/
theorem claim_C7_amended (st : NMMSubsystem) :
    deinit st = ⟨none, [], st.activeMainMenuSpotIdx⟩ := rfl

/-- Counterexample to C5 as stated: with two distinct registered spots
sharing `LevelType` and `RowIndex`, the query output is not strictly
ascending by `RowIndex` (only non-decreasing). -/
theorem claim_C5_counterexample :
    ¬ (getMainMenuSpotsByLevelType [some ⟨0, 1, 7⟩, some ⟨1, 1, 7⟩] [] 1).Pairwise
        (fun a b => a.rowIndex < b.rowIndex) := by
  decide

/-- C5 as amended: with an empty output array the query returns exactly
the registered non-null spots of the level type, with no duplicate
handles, sorted non-decreasingly by `RowIndex`; the order is strictly
ascending under the data-model precondition that `RowIndex` is unique
within a level type. -/
theorem claim_C5_amended (spots : List (Option Spot)) (lt : Nat) :
    (∀ x : Spot, x ∈ getMainMenuSpotsByLevelType spots [] lt ↔
      some x ∈ spots ∧ x.levelType = lt) ∧
    (getMainMenuSpotsByLevelType spots [] lt).Nodup ∧
    (getMainMenuSpotsByLevelType spots [] lt).Pairwise rowLE ∧
    (RowUniq spots →
      (getMainMenuSpotsByLevelType spots [] lt).Pairwise
        (fun a b => a.rowIndex < b.rowIndex)) := by
  refine ⟨?_, ?_, ?_, ?_⟩
  · intro x
    rw [mem_getMainMenuSpotsByLevelType]
    simp
  · exact getMainMenuSpotsByLevelType_nodup List.nodup_nil
  · exact getMainMenuSpotsByLevelType_sorted spots [] lt
  · intro huniq
    have hle := getMainMenuSpotsByLevelType_sorted spots [] lt
    have hnd : (getMainMenuSpotsByLevelType spots [] lt).Nodup :=
      getMainMenuSpotsByLevelType_nodup List.nodup_nil
    refine List.Pairwise.imp_of_mem ?_ (hle.and hnd)
    intro a b ha hb hab
    rcases hab with ⟨hle', hne⟩
    rcases mem_getMainMenuSpotsByLevelType.mp ha with h0 | ⟨has, halt⟩
    · cases h0
    rcases mem_getMainMenuSpotsByLevelType.mp hb with h0 | ⟨hbs, hblt⟩
    · cases h0
    exact lt_of_le_of_ne hle'
      (fun heq => hne (huniq a b has hbs (by rw [halt, hblt]) heq))

/-- Witness for C5's amended strict-order part on a registry with unique
row indices. -/
theorem claim_C5_witness :
    (getMainMenuSpotsByLevelType [some ⟨0, 1, 3⟩, some ⟨1, 1, 0⟩] [] 1).Pairwise
      (fun a b => a.rowIndex < b.rowIndex) :=
  (claim_C5_amended [some ⟨0, 1, 3⟩, some ⟨1, 1, 0⟩] 1).2.2.2 (by
    intro q1 q2 h1 h2 hl hr
    simp only [List.mem_cons, List.mem_singleton, Option.some.injEq,
      List.not_mem_nil, or_false] at h1 h2
    rcases h1 with rfl | rfl <;> rcases h2 with rfl | rfl <;> simp_all)

/-- C8: if the active spot is the only registered spot of the current
level type carrying the active row index, then after removing it every
cycle call (any direction) is the reported no-op returning the null
handle — in particular it never returns the removed spot. -/
theorem claim_C8 (st : NMMSubsystem) (lt : Nat) (sp : Spot) (inc : Int)
    (hmem : some sp ∈ st.mainMenuSpots) (hlt : sp.levelType = lt)
    (hrow : sp.rowIndex = st.activeMainMenuSpotIdx)
    (huniq : ∀ q : Spot, some q ∈ st.mainMenuSpots → q.levelType = lt →
      q.rowIndex = st.activeMainMenuSpotIdx → q = sp) :
    moveMainMenuSpot (removeMainMenuSpot st (some sp)).1 lt inc =
      Except.ok ⟨(removeMainMenuSpot st (some sp)).1, [], none⟩ ∧
    ∀ res, moveMainMenuSpot (removeMainMenuSpot st (some sp)).1 lt inc =
      Except.ok res → res.returned ≠ some sp := by
  have hnotmem : ((removeMainMenuSpot st (some sp)).1).activeMainMenuSpotIdx ∉
      candidateRows (removeMainMenuSpot st (some sp)).1 lt := by
    intro hmem'
    rcases mem_candidateRows.mp hmem' with ⟨q, hq, hqlt, hqrow⟩
    have hq0 : some q ∈ st.mainMenuSpots := mem_of_mem_removeSwap hq
    have hqsp : q = sp := huniq q hq0 hqlt hqrow
    subst hqsp
    exact not_mem_removeSwap_self _ _ hq
  have hmove := moveMainMenuSpot_not_found (removeMainMenuSpot st (some sp)).1 lt inc hnotmem
  refine ⟨hmove, ?_⟩
  intro res hres
  rw [hmove] at hres
  cases Except.ok.inj hres
  simp

/-- Witness for C8: removing the single registered spot makes the next
cycle a reported no-op. -/
theorem claim_C8_witness :
    moveMainMenuSpot (removeMainMenuSpot ⟨none, [some ⟨0, 0, 0⟩], 0⟩ (some ⟨0, 0, 0⟩)).1 0 1 =
      Except.ok ⟨(removeMainMenuSpot ⟨none, [some ⟨0, 0, 0⟩], 0⟩ (some ⟨0, 0, 0⟩)).1, [], none⟩ :=
  (claim_C8 ⟨none, [some ⟨0, 0, 0⟩], 0⟩ 0 ⟨0, 0, 0⟩ 1 (by decide) rfl rfl
    (by
      intro q hq _ _
      simpa using hq)).1

/-- C10: `GetMainMenuSpotsByLevelType` appends to the caller-supplied
output array without clearing it: the result's members are the
pre-existing elements together with the matching registered spots
(`AddUnique` suppresses duplicates against the pre-existing elements),
the whole result is re-sorted by `RowIndex`, and a non-empty initial
output array can change the result — so the call coincides with the pure
level-type query exactly in the empty-output case. -/
theorem claim_C10 :
    (∀ (spots : List (Option Spot)) (out : List Spot) (lt : Nat) (x : Spot),
      x ∈ getMainMenuSpotsByLevelType spots out lt ↔
        x ∈ out ∨ (some x ∈ spots ∧ x.levelType = lt)) ∧
    (∀ (spots : List (Option Spot)) (out : List Spot) (lt : Nat),
      (getMainMenuSpotsByLevelType spots out lt).Pairwise rowLE) ∧
    (getMainMenuSpotsByLevelType [some ⟨0, 0, 0⟩] [⟨9, 5, 1⟩] 0 ≠
      getMainMenuSpotsByLevelType [some ⟨0, 0, 0⟩] [] 0) := by
  refine ⟨?_, ?_, by decide⟩
  · intro spots out lt x
    exact mem_getMainMenuSpotsByLevelType
  · intro spots out lt
    exact getMainMenuSpotsByLevelType_sorted spots out lt
